import Mathlib

/-!
Verification of the replicated blob store and capabilities subsystem.

The blob store (put/get/streams/clear/live download) is embedded as a shallow
model: a `Store` holds one writer drive plus an association list of remote
drives; each `Drive` pairs an append-only index (list of `IndexEntry`) with an
append-only data core (list of blocks) and a set of locally available block
indices.  The capabilities module is embedded directly from
`src/capabilities.js`.
-/

namespace Mapeo

abbrev Bytes := List Nat
abbrev Block := List Nat

/-- Logical identity of an attachment: `{type, variant, name}`. -/
structure BlobId where
  typ : String
  variant : String
  name : String
deriving DecidableEq

/-- Modelled from the spec: an IndexEntry is "one immutable record appended to
an index core per write, containing: the data-core reference (which data core
among the drive's set), block offset, block count, total byte length, and the
BlobId components" (spec section 3).  The model keeps one data core per drive,
so the data-core reference is omitted. -/
structure IndexEntry where
  blobId : BlobId
  blockOffset : Nat
  blockCount : Nat
  byteLength : Nat
deriving DecidableEq

/-- Modelled from the spec: a Drive pairs one index core with data storage
(spec section 3).  `entries` is the full index log as written by the drive's
owner, `indexContig` the locally contiguous downloaded prefix of the index
(`contiguousLength`), `dataCore` the append-only block log, and `localBlocks`
the indices of blocks available locally.  `initialized` is false for a drive
known only by discovery key (never synced). -/
structure Drive where
  initialized : Bool
  entries : List IndexEntry
  indexContig : Nat
  dataCore : List Block
  localBlocks : List Nat
deriving DecidableEq

/-- Modelled from the spec: the blob store resolves `driveId`s through the Core
Registry; `writerDriveId` names the local device's own drive (spec sections
2 and 3).  `remotes` is the association list of all other drives the registry
has learned about. -/
structure Store where
  writerDriveId : String
  writer : Drive
  remotes : List (String × Drive)
deriving DecidableEq

/-- Default block size used when splitting a payload into fixed-size blocks
(64 KiB, the hyperblobs default referenced by the repository's tests). -/
def blockSize : Nat := 65536

/-- Modelled from the spec: `put` "appends `bytes` as one or more fixed-size
blocks" (spec section 4.1); the chunking of a payload into blocks.  An empty
payload still occupies one (empty) block. -/
def chunkBlocks (l : Bytes) : List Block :=
  if h : l.length ≤ blockSize then [l]
  else l.take blockSize :: chunkBlocks (l.drop blockSize)
termination_by l.length
decreasing_by
  simp only [List.length_drop, blockSize] at *
  omega

theorem chunkBlocks_flatten (l : Bytes) : (chunkBlocks l).flatten = l := by
  generalize hn : l.length = n
  induction n using Nat.strong_induction_on generalizing l with
  | _ n ih =>
    unfold chunkBlocks
    split
    · simp
    · next h =>
      have hlt : (l.drop blockSize).length < n := by
        simp only [List.length_drop]
        simp only [not_le, blockSize] at h
        simp only [blockSize]
        omega
      have hrec := ih _ hlt (l.drop blockSize) rfl
      simp [hrec, List.take_append_drop]

theorem chunkBlocks_length_pos (l : Bytes) : 0 < (chunkBlocks l).length := by
  unfold chunkBlocks
  split <;> simp

/-- Registry lookup by drive id (discovery key). -/
def Store.lookup (s : Store) (did : String) : Option Drive :=
  if did = s.writerDriveId then some s.writer
  else Option.map Prod.snd (s.remotes.find? fun p => p.1 == did)

/-- Index entries that are locally readable: the contiguous prefix. -/
def Drive.readableEntries (d : Drive) : List IndexEntry :=
  d.entries.take d.indexContig

/-- Modelled from the spec: "scan index entries to find the latest entry
matching `(type, variant, name)`" (spec section 4.3, step 4). -/
def lookupEntry (d : Drive) (b : BlobId) : Option IndexEntry :=
  d.readableEntries.reverse.find? fun e => e.blobId == b

/-- Block index `i` falls inside the block range of entry `e`. -/
def inBlockRange (e : IndexEntry) (i : Nat) : Bool :=
  decide (e.blockOffset ≤ i ∧ i < e.blockOffset + e.blockCount)

/-- All data blocks referenced by `e` are present locally. -/
def allBlocksLocal (d : Drive) (e : IndexEntry) : Bool :=
  (List.range e.blockCount).all fun k => d.localBlocks.contains (e.blockOffset + k)

/-- Read and concatenate the block range referenced by an entry. -/
def readEntry (d : Drive) (e : IndexEntry) : Bytes :=
  (((d.dataCore.drop e.blockOffset).take e.blockCount).flatten).take e.byteLength

/-- Modelled from the spec: the error taxonomy of section 7. -/
inductive BlobError where
  | unknownDrive
  | uninitializedDrive
  | unreplicatedDrive
  | blobNotFound
  | blockNotAvailable
  | remoteUnavailable
deriving DecidableEq

/-- User-visible message per error (the two quoted strings are the ones the
repository's tests assert on). -/
def errorMessage : BlobError → String
  | .unknownDrive => "Drive not found"
  | .uninitializedDrive => "Drive not initialized"
  | .unreplicatedDrive => "Drive not replicated"
  | .blobNotFound => "Blob does not exist"
  | .blockNotAvailable => "Block not available"
  | .remoteUnavailable => "Remote bytes not available"

/-- Modelled from the spec: steps 1-3 of the resolution algorithm (spec
section 4.3): unknown drive, uninitialized drive, then unreplicated drive
(proof-of-length known but zero contiguous bytes). -/
def resolveDrive (s : Store) (did : String) : Except BlobError Drive :=
  match s.lookup did with
  | none => .error .unknownDrive
  | some d =>
    if d.initialized = false then .error .uninitializedDrive
    else if 0 < d.entries.length ∧ d.indexContig = 0 then .error .unreplicatedDrive
    else .ok d

/-- Modelled from the spec: step 5 of the resolution algorithm — the
"suspending path awaits missing blocks from peers; non-suspending path fails
immediately with 'block not available'" (spec section 4.3).  The model reads
after replication has stopped, so the suspending path's wait for absent blocks
surfaces as `remoteUnavailable`. -/
def readBlocks (d : Drive) (e : IndexEntry) (wait : Bool) : Except BlobError Bytes :=
  if allBlocksLocal d e then .ok (readEntry d e)
  else .error (if wait then .remoteUnavailable else .blockNotAvailable)

/-- Steps 4-5 of the resolution algorithm at the drive level. -/
def driveRead (d : Drive) (b : BlobId) (wait : Bool) : Except BlobError Bytes :=
  match lookupEntry d b with
  | none => .error .blobNotFound
  | some e => readBlocks d e wait

/-- Modelled from the spec: "two entry points over one resolution function,
parameterized by a boolean 'may await network'" (spec section 9). -/
def blobRead (s : Store) (b : BlobId) (did : String) (wait : Bool) :
    Except BlobError Bytes :=
  match resolveDrive s did with
  | .error err => .error err
  | .ok d => driveRead d b wait

/-- Modelled from the spec: `get` — the suspending read path (spec
section 4.1). -/
def Store.get (s : Store) (b : BlobId) (did : String) : Except BlobError Bytes :=
  blobRead s b did true

/-- Modelled from the spec: `createReadStream` — the non-suspending read path;
the stream is modelled by its outcome: either the streamed bytes or the error
it emits (spec section 4.1). -/
def Store.createReadStream (s : Store) (b : BlobId) (did : String) :
    Except BlobError Bytes :=
  blobRead s b did false

/-- Modelled from the spec: `entry(blobId+driveId)` resolves and returns just
the index entry (spec section 4.1). -/
def Store.entry (s : Store) (b : BlobId) (did : String) :
    Except BlobError IndexEntry :=
  match resolveDrive s did with
  | .error err => .error err
  | .ok d =>
    match lookupEntry d b with
    | none => .error .blobNotFound
    | some e => .ok e

/-- Modelled from the spec: `getEntryBlob` / `createEntryReadStream` read using
a previously resolved entry, skipping index lookup, with the same local-only
non-suspending semantics as `createReadStream` (spec section 4.1). -/
def Store.getEntryBlob (s : Store) (did : String) (e : IndexEntry) :
    Except BlobError Bytes :=
  match s.lookup did with
  | none => .error .unknownDrive
  | some d => readBlocks d e false

/-- Modelled from the spec: appending one blob to a drive — raw bytes go to the
data core as blocks, then one IndexEntry goes to the index (spec section 2,
"data flow").  `fetchData` distinguishes a local write / downloaded blob (data
blocks present locally) from a replicated index entry whose data blocks were
not fetched. -/
def Drive.appendBlob (d : Drive) (b : BlobId) (bytes : Bytes) (fetchData : Bool) :
    Drive :=
  let blocks := chunkBlocks bytes
  let off := d.dataCore.length
  { initialized := d.initialized
    entries := d.entries ++ [⟨b, off, blocks.length, bytes.length⟩]
    indexContig := d.entries.length + 1
    dataCore := d.dataCore ++ blocks
    localBlocks :=
      if fetchData then d.localBlocks ++ (List.range blocks.length).map (fun k => off + k)
      else d.localBlocks }

/-- Modelled from the spec: `put(blobId, bytes) -> driveId` appends to the
writer drive and returns the writer's DriveId (spec section 4.1). -/
def Store.put (s : Store) (b : BlobId) (bytes : Bytes) : Store × String :=
  ({ s with writer := s.writer.appendBlob b bytes true }, s.writerDriveId)

/-- Modelled from the spec: a write stream carries "a `driveId` property set to
the writer drive's id before any bytes are written" (spec section 4.1). -/
structure WriteStream where
  driveId : String
  blobId : BlobId
deriving DecidableEq

/-- Modelled from the spec: `createWriteStream(blobId)` (spec section 4.1). -/
def Store.createWriteStream (s : Store) (b : BlobId) : WriteStream :=
  ⟨s.writerDriveId, b⟩

/-- Modelled from the spec: completing a write stream appends the index entry
"only on stream completion" — equivalent to a `put` of the streamed bytes
(spec section 4.1). -/
def Store.finishWriteStream (s : Store) (ws : WriteStream) (bytes : Bytes) :
    Store × String :=
  s.put ws.blobId bytes

/-- Update one drive in the registry, leaving every other drive unchanged. -/
def Store.updateDrive (s : Store) (did : String) (f : Drive → Drive) : Store :=
  if did = s.writerDriveId then { s with writer := f s.writer }
  else { s with remotes := s.remotes.map fun p => if p.1 == did then (p.1, f p.2) else p }

/-- Delete the locally stored blocks of one entry; the index is untouched. -/
def Drive.clearEntry (d : Drive) (e : IndexEntry) : Drive :=
  { d with localBlocks := d.localBlocks.filter fun i => !(inBlockRange e i) }

/-- Modelled from the spec: `clear(blobId+driveId)` "deletes locally stored
block data for the resolved entry (if any); idempotent; does not touch the
index" (spec section 4.1). -/
def Store.clear (s : Store) (b : BlobId) (did : String) : Store :=
  match s.entry b did with
  | .error _ => s
  | .ok e => s.updateDrive did fun d => d.clearEntry e

/-! ## Live Download Controller -/

/-- Modelled from the spec: a download filter "is a mapping from blob `type` to
the set of allowed `variant`s" (spec section 4.2). -/
abbrev DownloadFilter := List (String × List String)

/-- Modelled from the spec: a blob is wanted when its type appears in the
filter and its variant is among that type's allowed variants; "blobs of a type
absent from the filter are never downloaded"; "absent filter means download
everything" (spec section 4.2). -/
def matchesFilter (f : Option DownloadFilter) (b : BlobId) : Bool :=
  match f with
  | none => true
  | some fl =>
    match fl.find? (fun p => p.1 == b.typ) with
    | none => false
    | some p => p.2.contains b.variant

/-- Events observed by a live download: a remote device's blob write becoming
visible through replication (the drive is added to the Core Registry on its
first write if it was unknown), or the caller triggering the abort signal. -/
inductive DlEvent where
  | write (did : String) (b : BlobId) (bytes : Bytes)
  | abort
deriving DecidableEq

/-- Aggregate observable state of a LiveDownload: cancelled flag, error flag
(the controller "never throws"; cancellation "does not produce an error", spec
sections 4.2 and 7), and the `{haveCount, wantCount}` pair. -/
structure DlState where
  aborted : Bool
  errored : Bool
  haveCount : Nat
  wantCount : Nat
deriving DecidableEq

/-- Initial LiveDownload state, before any core is tracked. -/
def dlInit : DlState :=
  { aborted := false, errored := false, haveCount := 0, wantCount := 0 }

/-- Modelled from the spec: "`downloading` means at least one tracked core has
undownloaded wanted bytes; `downloaded` means all currently-tracked cores have
had their wanted ranges fully retrieved" (spec section 4.2). -/
def dlStatus (st : DlState) : String :=
  if st.haveCount < st.wantCount then "downloading" else "downloaded"

/-- A remote drive as first learned by the Core Registry: initialized, empty. -/
def emptyRemoteDrive : Drive :=
  { initialized := true, entries := [], indexContig := 0, dataCore := [], localBlocks := [] }

/-- Register a drive in the Core Registry if it is not yet known. -/
def Store.ensureDrive (s : Store) (did : String) : Store :=
  match s.lookup did with
  | some _ => s
  | none => { s with remotes := s.remotes ++ [(did, emptyRemoteDrive)] }

/-- Modelled from the spec: a remote write becoming visible locally — "index
cores are always fully tracked; data cores are tracked only for block ranges
matching the filter's resolved IndexEntries" (spec section 4.2).  The index
entry always replicates; the data blocks are fetched only when `fetchData`. -/
def applyRemoteWrite (s : Store) (did : String) (b : BlobId) (bytes : Bytes)
    (fetchData : Bool) : Store :=
  (s.ensureDrive did).updateDrive did fun d => d.appendBlob b bytes fetchData

/-- Modelled from the spec: one step of the Live Download Controller.  After
the abort signal, "the controller stops issuing new fetch requests and
detaches its tracking" (spec section 4.2), so an aborted download fetches
nothing further; a wanted blob's range is fetched and counted, an unwanted
blob's index entry still replicates but its data is not fetched. -/
def dlStep (f : Option DownloadFilter) : DlState × Store → DlEvent → DlState × Store
  | (st, s), .abort => ({ st with aborted := true }, s)
  | (st, s), .write did b bytes =>
    if st.aborted then (st, s)
    else if matchesFilter f b then
      ({ st with haveCount := st.haveCount + 1, wantCount := st.wantCount + 1 },
        applyRemoteWrite s did b bytes true)
    else (st, applyRemoteWrite s did b bytes false)

/-- Run a LiveDownload from a given state over a sequence of events. -/
def dlRun (f : Option DownloadFilter) (start : DlState × Store)
    (events : List DlEvent) : DlState × Store :=
  events.foldl (dlStep f) start

/-! ## Capabilities (embedded from `src/capabilities.js`) -/

/-- Per-document-type capability flags (`DocCapability` in the source). -/
structure DocCapability where
  readOwn : Bool
  writeOwn : Bool
  readOthers : Bool
  writeOthers : Bool
deriving DecidableEq

/-- A capability value.  In the source, `docs` maps every schema name to the
same `DocCapability` record (`mapObject(currentSchemaVersions, ...)` with a
constant body), so the model stores that uniform record once. -/
structure Capability where
  name : String
  docs : DocCapability
  roleAssignment : List String
  sync : String
deriving DecidableEq

def COORDINATOR_ROLE_ID : String := "f7c150f5a3a9a855"
def MEMBER_ROLE_ID : String := "012fd2d431c0bf60"
def BLOCKED_ROLE_ID : String := "9e6d29263cba36c9"

/-- `CREATOR_CAPABILITIES` from the source. -/
def CREATOR_CAPABILITIES : Capability :=
  { name := "Project Creator"
    docs := ⟨true, true, true, true⟩
    roleAssignment := [COORDINATOR_ROLE_ID, MEMBER_ROLE_ID, BLOCKED_ROLE_ID]
    sync := "allowed" }

/-- `DEFAULT_CAPABILITIES[MEMBER_ROLE_ID]` from the source. -/
def MEMBER_CAPABILITIES : Capability :=
  { name := "Member"
    docs := ⟨true, true, true, false⟩
    roleAssignment := []
    sync := "allowed" }

/-- `DEFAULT_CAPABILITIES[COORDINATOR_ROLE_ID]` from the source. -/
def COORDINATOR_CAPABILITIES : Capability :=
  { name := "Coordinator"
    docs := ⟨true, true, true, true⟩
    roleAssignment := [COORDINATOR_ROLE_ID, MEMBER_ROLE_ID, BLOCKED_ROLE_ID]
    sync := "allowed" }

/-- `DEFAULT_CAPABILITIES[BLOCKED_ROLE_ID]` from the source. -/
def BLOCKED_CAPABILITIES : Capability :=
  { name := "Blocked"
    docs := ⟨false, false, false, false⟩
    roleAssignment := []
    sync := "blocked" }

/-- The `DEFAULT_CAPABILITIES` record, as a lookup by role id. -/
def DEFAULT_CAPABILITIES (roleId : String) : Option Capability :=
  if roleId = MEMBER_ROLE_ID then some MEMBER_CAPABILITIES
  else if roleId = COORDINATOR_ROLE_ID then some COORDINATOR_CAPABILITIES
  else if roleId = BLOCKED_ROLE_ID then some BLOCKED_CAPABILITIES
  else none

/-- `isKnownRoleId` from the source: `roleId in DEFAULT_CAPABILITIES`. -/
def isKnownRoleId (roleId : String) : Bool :=
  (DEFAULT_CAPABILITIES roleId).isSome

/-- Collaborators consulted by `Capabilities.getCapabilities`: the stored role
assignment (`dataType.getByDocId`, `none` when the lookup throws because no
record exists) and core ownership (`coreOwnership.getCoreId(deviceId, 'auth')`,
treated as a total oracle), plus the project creator's auth core id. -/
structure CapabilitiesEnv where
  roleOf : String → Option String
  authCoreIdOf : String → String
  projectCreatorAuthCoreId : String

/-- `Capabilities.getCapabilities` from the source: if no role record exists,
the project creator gets `CREATOR_CAPABILITIES` and anyone else gets
`DEFAULT_CAPABILITIES[BLOCKED_ROLE_ID]`; an unknown stored role id also maps
to the blocked capabilities. -/
def getCapabilities (env : CapabilitiesEnv) (deviceId : String) : Capability :=
  match env.roleOf deviceId with
  | none =>
    if env.authCoreIdOf deviceId = env.projectCreatorAuthCoreId then
      CREATOR_CAPABILITIES
    else BLOCKED_CAPABILITIES
  | some roleId =>
    if isKnownRoleId roleId = false then BLOCKED_CAPABILITIES
    else (DEFAULT_CAPABILITIES roleId).getD BLOCKED_CAPABILITIES

/-! ## Lemmas about appending a blob to a drive -/

/-- The index entry produced by appending `bytes` under `b` to drive `d`. -/
def newEntry (d : Drive) (b : BlobId) (y : Bytes) : IndexEntry :=
  ⟨b, d.dataCore.length, (chunkBlocks y).length, y.length⟩

theorem appendBlob_initialized (d : Drive) (b : BlobId) (y : Bytes) (fd : Bool) :
    (d.appendBlob b y fd).initialized = d.initialized := rfl

theorem appendBlob_entries (d : Drive) (b : BlobId) (y : Bytes) (fd : Bool) :
    (d.appendBlob b y fd).entries = d.entries ++ [newEntry d b y] := rfl

theorem appendBlob_indexContig (d : Drive) (b : BlobId) (y : Bytes) (fd : Bool) :
    (d.appendBlob b y fd).indexContig = d.entries.length + 1 := rfl

theorem readableEntries_appendBlob (d : Drive) (b : BlobId) (y : Bytes) (fd : Bool) :
    (d.appendBlob b y fd).readableEntries = d.entries ++ [newEntry d b y] := by
  unfold Drive.readableEntries
  rw [appendBlob_entries, appendBlob_indexContig]
  exact List.take_of_length_le (by simp)

theorem lookupEntry_appendBlob_self (d : Drive) (b : BlobId) (y : Bytes) (fd : Bool) :
    lookupEntry (d.appendBlob b y fd) b = some (newEntry d b y) := by
  unfold lookupEntry
  rw [readableEntries_appendBlob, List.reverse_append]
  simp [List.find?_cons, newEntry]

theorem lookupEntry_appendBlob_other (d : Drive) (b b' : BlobId) (y : Bytes) (fd : Bool)
    (hne : b' ≠ b) (hc : d.indexContig = d.entries.length) :
    lookupEntry (d.appendBlob b y fd) b' = lookupEntry d b' := by
  unfold lookupEntry
  rw [readableEntries_appendBlob, List.reverse_append]
  unfold Drive.readableEntries
  rw [hc, List.take_length]
  simp [List.find?_cons, newEntry, hne, Ne.symm hne]

theorem appendBlob_localBlocks_true (d : Drive) (b : BlobId) (y : Bytes) :
    (d.appendBlob b y true).localBlocks
      = d.localBlocks
        ++ (List.range (chunkBlocks y).length).map (fun k => d.dataCore.length + k) := rfl

theorem appendBlob_localBlocks_false (d : Drive) (b : BlobId) (y : Bytes) :
    (d.appendBlob b y false).localBlocks = d.localBlocks := rfl

theorem appendBlob_dataCore (d : Drive) (b : BlobId) (y : Bytes) (fd : Bool) :
    (d.appendBlob b y fd).dataCore = d.dataCore ++ chunkBlocks y := rfl

theorem allBlocksLocal_appendBlob_self_true (d : Drive) (b : BlobId) (y : Bytes) :
    allBlocksLocal (d.appendBlob b y true) (newEntry d b y) = true := by
  unfold allBlocksLocal
  rw [appendBlob_localBlocks_true]
  simp only [newEntry, List.all_eq_true, List.mem_range]
  intro k hk
  have hmem : d.dataCore.length + k
      ∈ d.localBlocks
        ++ (List.range (chunkBlocks y).length).map (fun j => d.dataCore.length + j) :=
    List.mem_append_right _ (List.mem_map.mpr ⟨k, List.mem_range.mpr hk, rfl⟩)
  simpa using hmem

theorem readEntry_appendBlob_self (d : Drive) (b : BlobId) (y : Bytes) (fd : Bool) :
    readEntry (d.appendBlob b y fd) (newEntry d b y) = y := by
  unfold readEntry newEntry Drive.appendBlob
  simp only
  rw [List.drop_left, List.take_length, chunkBlocks_flatten, List.take_length]

/-- Every locally available block index refers to an existing block. -/
def Drive.blocksBounded (d : Drive) : Prop :=
  ∀ i ∈ d.localBlocks, i < d.dataCore.length

/-- Every index entry's block range lies inside the data core. -/
def Drive.entriesBounded (d : Drive) : Prop :=
  ∀ e ∈ d.entries, e.blockOffset + e.blockCount ≤ d.dataCore.length

theorem allBlocksLocal_appendBlob_self_false (d : Drive) (b : BlobId) (y : Bytes)
    (hb : d.blocksBounded) :
    allBlocksLocal (d.appendBlob b y false) (newEntry d b y) = false := by
  rw [Bool.eq_false_iff]
  intro hall
  rw [allBlocksLocal, List.all_eq_true] at hall
  have h0 : (0 : Nat) ∈ List.range (newEntry d b y).blockCount :=
    List.mem_range.mpr (chunkBlocks_length_pos y)
  have := hall 0 h0
  rw [appendBlob_localBlocks_false] at this
  have hmem : (newEntry d b y).blockOffset + 0 ∈ d.localBlocks := by
    simpa using this
  have := hb _ hmem
  simp only [newEntry] at this
  omega

theorem allBlocksLocal_appendBlob_of_bounded (d : Drive) (b : BlobId) (y : Bytes)
    (fd : Bool) (e : IndexEntry)
    (he : e.blockOffset + e.blockCount ≤ d.dataCore.length) :
    allBlocksLocal (d.appendBlob b y fd) e = allBlocksLocal d e := by
  rw [Bool.eq_iff_iff]
  unfold allBlocksLocal
  rw [List.all_eq_true, List.all_eq_true]
  constructor
  · intro hall k hk
    have := hall k hk
    cases fd with
    | true =>
      rw [appendBlob_localBlocks_true] at this
      have hmem : e.blockOffset + k ∈ d.localBlocks
          ++ (List.range (chunkBlocks y).length).map (fun j => d.dataCore.length + j) := by
        simpa using this
      rcases List.mem_append.mp hmem with hmem | hmem
      · simpa using hmem
      · exfalso
        rcases List.mem_map.mp hmem with ⟨j, _, hj⟩
        have hklt : k < e.blockCount := List.mem_range.mp hk
        omega
    | false => rw [appendBlob_localBlocks_false] at this; exact this
  · intro hall k hk
    have := hall k hk
    cases fd with
    | true =>
      rw [appendBlob_localBlocks_true]
      have hmem : e.blockOffset + k ∈ d.localBlocks := by simpa using this
      simpa using Or.inl hmem
    | false => rw [appendBlob_localBlocks_false]; exact this

theorem readEntry_appendBlob_of_bounded (d : Drive) (b : BlobId) (y : Bytes)
    (fd : Bool) (e : IndexEntry)
    (he : e.blockOffset + e.blockCount ≤ d.dataCore.length) :
    readEntry (d.appendBlob b y fd) e = readEntry d e := by
  unfold readEntry
  rw [appendBlob_dataCore]
  rw [List.drop_append_of_le_length (by omega)]
  rw [List.take_append_of_le_length (by simp [List.length_drop]; omega)]

theorem driveRead_appendBlob_self (d : Drive) (b : BlobId) (y : Bytes)
    (fd wait : Bool) (hb : d.blocksBounded) :
    driveRead (d.appendBlob b y fd) b wait =
      if fd then .ok y
      else .error (if wait then .remoteUnavailable else .blockNotAvailable) := by
  unfold driveRead
  rw [lookupEntry_appendBlob_self]
  cases fd with
  | true =>
    simp only [readBlocks, allBlocksLocal_appendBlob_self_true, if_true]
    rw [readEntry_appendBlob_self]
  | false =>
    simp only [readBlocks, allBlocksLocal_appendBlob_self_false d b y hb]
    simp

theorem mem_entries_of_lookupEntry (d : Drive) (b : BlobId) (e : IndexEntry)
    (h : lookupEntry d b = some e) : e ∈ d.entries := by
  unfold lookupEntry at h
  have := List.mem_of_find?_eq_some h
  rw [List.mem_reverse] at this
  exact List.mem_of_mem_take this

theorem driveRead_appendBlob_other (d : Drive) (b b' : BlobId) (y : Bytes)
    (fd wait : Bool) (hne : b ≠ b')
    (hc : d.indexContig = d.entries.length)
    (he : d.entriesBounded) :
    driveRead (d.appendBlob b' y fd) b wait = driveRead d b wait := by
  unfold driveRead
  rw [lookupEntry_appendBlob_other d b' b y fd hne hc]
  cases hfind : lookupEntry d b with
  | none => rfl
  | some e =>
    have hmem := mem_entries_of_lookupEntry d b e hfind
    have hbound := he e hmem
    dsimp only
    unfold readBlocks
    rw [allBlocksLocal_appendBlob_of_bounded d b' y fd e hbound]
    rw [readEntry_appendBlob_of_bounded d b' y fd e hbound]

/-! ## Lemmas about registry lookups and updates -/

theorem lookup_writer (s : Store) : s.lookup s.writerDriveId = some s.writer := by
  unfold Store.lookup
  simp

theorem find?_map_update (did : String) (f : Drive → Drive) (l : List (String × Drive)) :
    Option.map Prod.snd
        ((l.map fun p => if p.1 == did then (p.1, f p.2) else p).find? fun p => p.1 == did)
      = Option.map f (Option.map Prod.snd (l.find? fun p => p.1 == did)) := by
  induction l with
  | nil => rfl
  | cons p ps ih =>
    rw [List.map_cons, List.find?_cons, List.find?_cons]
    have hfst : ((if p.1 == did then (p.1, f p.2) else p).1 == did) = (p.1 == did) := by
      cases hb : p.1 == did <;> simp [hb]
    rw [hfst]
    cases hb : p.1 == did with
    | true => simp [hb]
    | false =>
      dsimp only
      exact ih

theorem find?_map_update_other (did did' : String) (h : did' ≠ did) (f : Drive → Drive)
    (l : List (String × Drive)) :
    ((l.map fun p => if p.1 == did then (p.1, f p.2) else p).find? fun p => p.1 == did')
      = l.find? fun p => p.1 == did' := by
  induction l with
  | nil => rfl
  | cons p ps ih =>
    rw [List.map_cons, List.find?_cons, List.find?_cons]
    have hfst : ((if p.1 == did then (p.1, f p.2) else p).1 == did') = (p.1 == did') := by
      cases hb : p.1 == did <;> simp [hb]
    rw [hfst]
    cases hb : p.1 == did' with
    | true =>
      have hp : p.1 = did' := by simpa using hb
      have hdid : (p.1 == did) = false := by
        simp only [beq_eq_false_iff_ne, ne_eq, hp]
        exact h
      simp [hdid]
    | false =>
      dsimp only
      exact ih

theorem lookup_updateDrive_self (s : Store) (did : String) (f : Drive → Drive) :
    (s.updateDrive did f).lookup did = (s.lookup did).map f := by
  unfold Store.updateDrive Store.lookup
  by_cases h : did = s.writerDriveId
  · simp [h]
  · simp only [h, if_false]
    exact find?_map_update did f s.remotes

theorem lookup_updateDrive_other (s : Store) (did did' : String) (f : Drive → Drive)
    (h : did' ≠ did) :
    (s.updateDrive did f).lookup did' = s.lookup did' := by
  unfold Store.updateDrive Store.lookup
  by_cases hw : did = s.writerDriveId
  · have : did' ≠ s.writerDriveId := fun hcon => h (hcon.trans hw.symm)
    simp [hw, this]
  · by_cases hw' : did' = s.writerDriveId
    · simp [hw, hw']
    · simp only [hw, hw', if_false]
      rw [find?_map_update_other did did' h f s.remotes]

theorem lookup_ensureDrive_self (s : Store) (did : String) :
    (s.ensureDrive did).lookup did = some ((s.lookup did).getD emptyRemoteDrive) := by
  unfold Store.ensureDrive
  cases h : s.lookup did with
  | some d => simp [h]
  | none =>
    have hw : ¬ did = s.writerDriveId := by
      intro hcon
      rw [hcon, lookup_writer] at h
      exact Option.noConfusion h
    unfold Store.lookup at h ⊢
    simp only [hw, if_false] at h ⊢
    have hfind : (s.remotes.find? fun p => p.1 == did) = none := by
      cases hf : s.remotes.find? fun p => p.1 == did with
      | none => rfl
      | some p => rw [hf] at h; exact Option.noConfusion h
    rw [List.find?_append, hfind]
    simp

theorem lookup_ensureDrive_other (s : Store) (did did' : String) (h : did' ≠ did) :
    (s.ensureDrive did).lookup did' = s.lookup did' := by
  unfold Store.ensureDrive
  cases hl : s.lookup did with
  | some d => rfl
  | none =>
    unfold Store.lookup
    by_cases hw : did' = s.writerDriveId
    · simp [hw]
    · simp only [hw, if_false]
      rw [List.find?_append]
      have hne : (did == did') = false := by
        rw [beq_eq_false_iff_ne]
        exact Ne.symm h
      have : (([(did, emptyRemoteDrive)] : List (String × Drive)).find?
          fun p => p.1 == did') = none := by
        rw [List.find?_cons]
        simp [hne]
      rw [this]
      simp

theorem applyRemoteWrite_lookup_self (s : Store) (did : String) (b : BlobId)
    (y : Bytes) (fd : Bool) :
    (applyRemoteWrite s did b y fd).lookup did
      = some (((s.lookup did).getD emptyRemoteDrive).appendBlob b y fd) := by
  unfold applyRemoteWrite
  rw [lookup_updateDrive_self, lookup_ensureDrive_self]
  rfl

theorem applyRemoteWrite_lookup_other (s : Store) (did did' : String) (b : BlobId)
    (y : Bytes) (fd : Bool) (h : did' ≠ did) :
    (applyRemoteWrite s did b y fd).lookup did' = s.lookup did' := by
  unfold applyRemoteWrite
  rw [lookup_updateDrive_other _ _ _ _ h, lookup_ensureDrive_other _ _ _ h]

theorem updateDrive_writerDriveId (s : Store) (did : String) (f : Drive → Drive) :
    (s.updateDrive did f).writerDriveId = s.writerDriveId := by
  unfold Store.updateDrive
  split <;> rfl

theorem ensureDrive_writerDriveId (s : Store) (did : String) :
    (s.ensureDrive did).writerDriveId = s.writerDriveId := by
  unfold Store.ensureDrive
  cases s.lookup did <;> rfl

theorem applyRemoteWrite_writerDriveId (s : Store) (did : String) (b : BlobId)
    (y : Bytes) (fd : Bool) :
    (applyRemoteWrite s did b y fd).writerDriveId = s.writerDriveId := by
  unfold applyRemoteWrite
  rw [updateDrive_writerDriveId, ensureDrive_writerDriveId]

theorem clear_writerDriveId (s : Store) (b : BlobId) (did : String) :
    (s.clear b did).writerDriveId = s.writerDriveId := by
  unfold Store.clear
  cases s.entry b did with
  | error e => rfl
  | ok e => exact updateDrive_writerDriveId s did _

theorem dlStep_writerDriveId (f : Option DownloadFilter) (p : DlState × Store)
    (ev : DlEvent) :
    (dlStep f p ev).2.writerDriveId = p.2.writerDriveId := by
  obtain ⟨st, s⟩ := p
  cases ev with
  | abort => rfl
  | write did b y =>
    unfold dlStep
    by_cases ha : st.aborted
    · simp [ha]
    · by_cases hm : matchesFilter f b
      · simp [ha, hm, applyRemoteWrite_writerDriveId]
      · simp [ha, hm, applyRemoteWrite_writerDriveId]

theorem dlRun_writerDriveId (f : Option DownloadFilter) (p : DlState × Store)
    (events : List DlEvent) :
    (dlRun f p events).2.writerDriveId = p.2.writerDriveId := by
  induction events generalizing p with
  | nil => rfl
  | cons ev evs ih =>
    unfold dlRun at ih ⊢
    rw [List.foldl_cons, ih (dlStep f p ev)]
    exact dlStep_writerDriveId f p ev

theorem resolveDrive_ok (s : Store) (did : String) (d : Drive)
    (h : s.lookup did = some d) (hInit : d.initialized = true)
    (hno : ¬(0 < d.entries.length ∧ d.indexContig = 0)) :
    resolveDrive s did = .ok d := by
  unfold resolveDrive
  rw [h]
  dsimp only
  rw [if_neg (by simp [hInit]), if_neg hno]

theorem resolveDrive_unreplicated (s : Store) (did : String) (d : Drive)
    (h : s.lookup did = some d) (hInit : d.initialized = true)
    (hLen : 0 < d.entries.length) (hContig : d.indexContig = 0) :
    resolveDrive s did = .error .unreplicatedDrive := by
  unfold resolveDrive
  rw [h]
  dsimp only
  rw [if_neg (by simp [hInit]), if_pos ⟨hLen, hContig⟩]

theorem blobRead_of_resolveDrive_ok (s : Store) (b : BlobId) (did : String)
    (d : Drive) (wait : Bool) (h : resolveDrive s did = .ok d) :
    blobRead s b did wait = driveRead d b wait := by
  unfold blobRead
  rw [h]

theorem driveRead_appendBlob_self_true (d : Drive) (b : BlobId) (y : Bytes)
    (wait : Bool) :
    driveRead (d.appendBlob b y true) b wait = .ok y := by
  unfold driveRead
  rw [lookupEntry_appendBlob_self]
  dsimp only
  unfold readBlocks
  rw [allBlocksLocal_appendBlob_self_true]
  rw [if_pos rfl, readEntry_appendBlob_self]

/-! ## Claim theorems -/

/-- C1: for every BlobId and every byte payload, after `put(blobId, bytes)`
returns `driveId`, a subsequent `get({...blobId, driveId})` on the same store
returns exactly the stored bytes (write/read round-trip identity). -/
theorem put_get_roundtrip (s : Store) (b : BlobId) (y : Bytes)
    (hInit : s.writer.initialized = true) :
    Store.get (s.put b y).1 b (s.put b y).2 = .ok y := by
  have hlook : (s.put b y).1.lookup (s.put b y).2
      = some (s.writer.appendBlob b y true) :=
    lookup_writer _
  have hres : resolveDrive (s.put b y).1 (s.put b y).2
      = .ok (s.writer.appendBlob b y true) := by
    apply resolveDrive_ok _ _ _ hlook
    · rw [appendBlob_initialized]; exact hInit
    · rw [appendBlob_indexContig]; omega
  unfold Store.get
  rw [blobRead_of_resolveDrive_ok _ _ _ _ _ hres]
  exact driveRead_appendBlob_self_true s.writer b y true

/-- Witness for C1 at a concrete store and payload. -/
theorem put_get_roundtrip_witness :
    Store.get
        ((⟨"w", ⟨true, [], 0, [], []⟩, []⟩ : Store).put ⟨"photo", "original", "f"⟩ [1, 2, 3]).1
        ⟨"photo", "original", "f"⟩
        ((⟨"w", ⟨true, [], 0, [], []⟩, []⟩ : Store).put ⟨"photo", "original", "f"⟩ [1, 2, 3]).2
      = .ok [1, 2, 3] :=
  put_get_roundtrip ⟨"w", ⟨true, [], 0, [], []⟩, []⟩ ⟨"photo", "original", "f"⟩ [1, 2, 3] rfl

/-- C7: a `get` whose `driveId` the Core Registry has never learned about
fails with the UnknownDrive error, regardless of the BlobId components. -/
theorem get_unknownDrive (s : Store) (b : BlobId) (did : String)
    (h : s.lookup did = none) :
    Store.get s b did = .error .unknownDrive := by
  unfold Store.get blobRead resolveDrive
  rw [h]

/-- Witness for C7 at a concrete store and drive id. -/
theorem get_unknownDrive_witness :
    Store.get (⟨"w", ⟨true, [], 0, [], []⟩, []⟩ : Store)
        ⟨"photo", "original", "x"⟩ "missing"
      = .error .unknownDrive :=
  get_unknownDrive _ _ _ (by decide)

/-- C8: on a drive whose proof-of-length is known (`entries` nonempty) but
with zero contiguous index bytes downloaded, `get` returns (so it terminates
rather than hanging) the UnreplicatedDrive error, for any BlobId. -/
theorem get_unreplicatedDrive (s : Store) (b : BlobId) (did : String) (d : Drive)
    (h : s.lookup did = some d) (hInit : d.initialized = true)
    (hLen : 0 < d.entries.length) (hContig : d.indexContig = 0) :
    Store.get s b did = .error .unreplicatedDrive := by
  unfold Store.get blobRead
  rw [resolveDrive_unreplicated s did d h hInit hLen hContig]

/-- Witness for C8 at a concrete store holding an initialized remote drive
with one entry known but nothing downloaded. -/
theorem get_unreplicatedDrive_witness :
    Store.get
        (⟨"w", ⟨true, [], 0, [], []⟩,
          [("r", ⟨true, [⟨⟨"photo", "original", "x"⟩, 0, 1, 1⟩], 0, [[7]], []⟩)]⟩ : Store)
        ⟨"photo", "original", "x"⟩ "r"
      = .error .unreplicatedDrive :=
  get_unreplicatedDrive _ _ _ ⟨true, [⟨⟨"photo", "original", "x"⟩, 0, 1, 1⟩], 0, [[7]], []⟩
    (by decide) rfl (by decide) rfl

/-- C9: `writerDriveId` is constant for the lifetime of a BlobStore instance
(unchanged by `put`, `clear` and live downloads); every `put` returns it, and
every `createWriteStream` carries it as the stream's `driveId` property from
creation, before any bytes are written. -/
theorem writerDriveId_constant (s : Store) (b : BlobId) (y : Bytes) (did : String)
    (f : Option DownloadFilter) (events : List DlEvent) :
    (s.put b y).2 = s.writerDriveId
    ∧ (s.createWriteStream b).driveId = s.writerDriveId
    ∧ (s.put b y).1.writerDriveId = s.writerDriveId
    ∧ (s.clear b did).writerDriveId = s.writerDriveId
    ∧ (dlRun f (dlInit, s) events).2.writerDriveId = s.writerDriveId :=
  ⟨rfl, rfl, rfl, clear_writerDriveId s b did, dlRun_writerDriveId f (dlInit, s) events⟩

theorem lookupEntry_some_contig_ne (d : Drive) (b : BlobId) (e : IndexEntry)
    (h : lookupEntry d b = some e) : d.indexContig ≠ 0 := by
  intro h0
  unfold lookupEntry Drive.readableEntries at h
  rw [h0] at h
  simp at h

theorem resolveDrive_error_mem (s : Store) (did : String) (err : BlobError)
    (h : resolveDrive s did = .error err) :
    err = .unknownDrive ∨ err = .uninitializedDrive ∨ err = .unreplicatedDrive := by
  unfold resolveDrive at h
  cases hl : s.lookup did with
  | none =>
    rw [hl] at h
    injection h with h
    exact Or.inl h.symm
  | some d =>
    rw [hl] at h
    dsimp only at h
    split at h
    · injection h with h
      exact Or.inr (Or.inl h.symm)
    · split at h
      · injection h with h
        exact Or.inr (Or.inr h.symm)
      · exact Except.noConfusion h

theorem resolveDrive_ok_lookup (s : Store) (did : String) (d : Drive)
    (h : resolveDrive s did = .ok d) : s.lookup did = some d := by
  unfold resolveDrive at h
  cases hl : s.lookup did with
  | none => rw [hl] at h; exact Except.noConfusion h
  | some d' =>
    rw [hl] at h
    dsimp only at h
    split at h
    · exact Except.noConfusion h
    · split at h
      · exact Except.noConfusion h
      · injection h with h
        rw [h]

/-- C2: with the drive resolvable, a locally readable index entry whose data
blocks are absent makes `get` fail and `createReadStream` fail with "Block not
available", while an absent entry makes both fail with "Blob does not exist";
and the non-suspending read path can never interchange the two outcomes: it
reports BlockNotAvailable only when a matching entry exists with a missing
block, and BlobNotFound only when no matching entry is readable. -/
theorem read_error_distinction (s : Store) (b : BlobId) (did : String) :
    (∀ d e, s.lookup did = some d → d.initialized = true →
        lookupEntry d b = some e → allBlocksLocal d e = false →
        Store.get s b did = .error .remoteUnavailable
          ∧ Store.createReadStream s b did = .error .blockNotAvailable)
    ∧ (∀ d, s.lookup did = some d → d.initialized = true →
        ¬(0 < d.entries.length ∧ d.indexContig = 0) → lookupEntry d b = none →
        Store.get s b did = .error .blobNotFound
          ∧ Store.createReadStream s b did = .error .blobNotFound)
    ∧ (Store.createReadStream s b did = .error .blockNotAvailable →
        ∃ d e, s.lookup did = some d ∧ lookupEntry d b = some e
          ∧ allBlocksLocal d e = false)
    ∧ (Store.createReadStream s b did = .error .blobNotFound →
        ∃ d, s.lookup did = some d ∧ lookupEntry d b = none)
    ∧ errorMessage .blockNotAvailable = "Block not available"
    ∧ errorMessage .blobNotFound = "Blob does not exist" := by
  refine ⟨?_, ?_, ?_, ?_, rfl, rfl⟩
  · intro d e hl hinit hfind hblocks
    have hres : resolveDrive s did = .ok d :=
      resolveDrive_ok s did d hl hinit
        (fun hand => lookupEntry_some_contig_ne d b e hfind hand.2)
    constructor
    · unfold Store.get
      rw [blobRead_of_resolveDrive_ok s b did d true hres]
      unfold driveRead
      rw [hfind]
      dsimp only
      unfold readBlocks
      rw [hblocks]
      rfl
    · unfold Store.createReadStream
      rw [blobRead_of_resolveDrive_ok s b did d false hres]
      unfold driveRead
      rw [hfind]
      dsimp only
      unfold readBlocks
      rw [hblocks]
      rfl
  · intro d hl hinit hno hfind
    have hres : resolveDrive s did = .ok d := resolveDrive_ok s did d hl hinit hno
    constructor
    · unfold Store.get
      rw [blobRead_of_resolveDrive_ok s b did d true hres]
      unfold driveRead
      rw [hfind]
    · unfold Store.createReadStream
      rw [blobRead_of_resolveDrive_ok s b did d false hres]
      unfold driveRead
      rw [hfind]
  · intro h
    unfold Store.createReadStream blobRead at h
    cases hr : resolveDrive s did with
    | error err =>
      rw [hr] at h
      dsimp only at h
      injection h with h
      rcases resolveDrive_error_mem s did err hr with h1 | h1 | h1 <;>
        · rw [h1] at h; exact BlobError.noConfusion h
    | ok d =>
      rw [hr] at h
      dsimp only at h
      unfold driveRead at h
      cases hfind : lookupEntry d b with
      | none =>
        rw [hfind] at h
        dsimp only at h
        injection h with h
        exact BlobError.noConfusion h
      | some e =>
        rw [hfind] at h
        dsimp only at h
        unfold readBlocks at h
        by_cases hloc : allBlocksLocal d e = true
        · rw [if_pos hloc] at h
          exact Except.noConfusion h
        · exact ⟨d, e, resolveDrive_ok_lookup s did d hr, hfind,
            Bool.not_eq_true _ ▸ hloc⟩
  · intro h
    unfold Store.createReadStream blobRead at h
    cases hr : resolveDrive s did with
    | error err =>
      rw [hr] at h
      dsimp only at h
      injection h with h
      rcases resolveDrive_error_mem s did err hr with h1 | h1 | h1 <;>
        · rw [h1] at h; exact BlobError.noConfusion h
    | ok d =>
      rw [hr] at h
      dsimp only at h
      unfold driveRead at h
      cases hfind : lookupEntry d b with
      | none => exact ⟨d, resolveDrive_ok_lookup s did d hr, hfind⟩
      | some e =>
        rw [hfind] at h
        dsimp only at h
        unfold readBlocks at h
        by_cases hloc : allBlocksLocal d e = true
        · rw [if_pos hloc] at h
          exact Except.noConfusion h
        · rw [if_neg hloc] at h
          injection h with h
          exact BlobError.noConfusion h

/-- Witness for C2 at a concrete store: one entry readable with a missing
block, and a lookup of a name that has no entry. -/
theorem read_error_distinction_witness :
    Store.createReadStream
        (⟨"w", ⟨true, [⟨⟨"photo", "original", "a"⟩, 0, 1, 1⟩], 1, [[9]], []⟩, []⟩ : Store)
        ⟨"photo", "original", "a"⟩ "w"
      = .error .blockNotAvailable
    ∧ Store.get
        (⟨"w", ⟨true, [⟨⟨"photo", "original", "a"⟩, 0, 1, 1⟩], 1, [[9]], []⟩, []⟩ : Store)
        ⟨"photo", "original", "zzz"⟩ "w"
      = .error .blobNotFound := by
  constructor
  · exact ((read_error_distinction
      (⟨"w", ⟨true, [⟨⟨"photo", "original", "a"⟩, 0, 1, 1⟩], 1, [[9]], []⟩, []⟩ : Store)
      ⟨"photo", "original", "a"⟩ "w").1
      ⟨true, [⟨⟨"photo", "original", "a"⟩, 0, 1, 1⟩], 1, [[9]], []⟩
      ⟨⟨"photo", "original", "a"⟩, 0, 1, 1⟩
      (by decide) (by decide) (by decide) (by decide)).2
  · exact ((read_error_distinction
      (⟨"w", ⟨true, [⟨⟨"photo", "original", "a"⟩, 0, 1, 1⟩], 1, [[9]], []⟩, []⟩ : Store)
      ⟨"photo", "original", "zzz"⟩ "w").2.1
      ⟨true, [⟨⟨"photo", "original", "a"⟩, 0, 1, 1⟩], 1, [[9]], []⟩
      (by decide) (by decide) (by decide) (by decide)).1

/-! ## Lemmas about clear -/

theorem clearEntry_entries (d : Drive) (e : IndexEntry) :
    (d.clearEntry e).entries = d.entries := rfl

theorem clearEntry_initialized (d : Drive) (e : IndexEntry) :
    (d.clearEntry e).initialized = d.initialized := rfl

theorem clearEntry_indexContig (d : Drive) (e : IndexEntry) :
    (d.clearEntry e).indexContig = d.indexContig := rfl

theorem lookupEntry_clearEntry (d : Drive) (e : IndexEntry) (b : BlobId) :
    lookupEntry (d.clearEntry e) b = lookupEntry d b := rfl

theorem allBlocksLocal_clearEntry_self (d : Drive) (e : IndexEntry)
    (hcount : 0 < e.blockCount) :
    allBlocksLocal (d.clearEntry e) e = false := by
  rw [Bool.eq_false_iff]
  intro hall
  rw [allBlocksLocal, List.all_eq_true] at hall
  have h0 : (0 : Nat) ∈ List.range e.blockCount := List.mem_range.mpr hcount
  have hc := hall 0 h0
  have hmem : e.blockOffset + 0
      ∈ (d.clearEntry e).localBlocks := by simpa using hc
  unfold Drive.clearEntry at hmem
  dsimp only at hmem
  rcases List.mem_filter.mp hmem with ⟨_, hpred⟩
  have hfalse : inBlockRange e (e.blockOffset + 0) = false := by
    simpa using hpred
  unfold inBlockRange at hfalse
  rw [decide_eq_false_iff_not] at hfalse
  exact hfalse ⟨Nat.le_add_right _ _, by omega⟩

theorem clearEntry_idem (d : Drive) (e : IndexEntry) :
    (d.clearEntry e).clearEntry e = d.clearEntry e := by
  unfold Drive.clearEntry
  simp [List.filter_filter]

theorem updateDrive_idem (s : Store) (did : String) (f : Drive → Drive)
    (hf : ∀ d, f (f d) = f d) :
    (s.updateDrive did f).updateDrive did f = s.updateDrive did f := by
  unfold Store.updateDrive
  by_cases h : did = s.writerDriveId
  · simp [h, hf]
  · simp only [h, if_false]
    congr 1
    rw [List.map_map]
    apply List.map_congr_left
    intro p _
    by_cases hp : p.1 = did
    · simp [Function.comp, hp, hf]
    · simp [Function.comp, hp]

theorem resolveDrive_updateDrive_clearEntry (s : Store) (did : String)
    (e : IndexEntry) :
    resolveDrive (s.updateDrive did fun d => d.clearEntry e) did
      = (resolveDrive s did).map fun d => d.clearEntry e := by
  unfold resolveDrive
  rw [lookup_updateDrive_self]
  cases hl : s.lookup did with
  | none => rfl
  | some d =>
    dsimp only [Option.map, Except.map]
    by_cases h1 : d.initialized = false
    · simp [clearEntry_initialized, h1]
    · by_cases h2 : 0 < d.entries.length ∧ d.indexContig = 0
      · simp [clearEntry_initialized, clearEntry_entries, clearEntry_indexContig, h1, h2]
      · simp [clearEntry_initialized, clearEntry_entries, clearEntry_indexContig, h1, h2]

theorem entry_clear (s : Store) (b : BlobId) (did : String) (b' : BlobId)
    (did' : String) :
    Store.entry (Store.clear s b did) b' did' = Store.entry s b' did' := by
  unfold Store.clear
  cases he : Store.entry s b did with
  | error err => rfl
  | ok e =>
    dsimp only
    by_cases hd : did' = did
    · subst hd
      unfold Store.entry
      rw [resolveDrive_updateDrive_clearEntry]
      cases hr : resolveDrive s did' with
      | error err => rfl
      | ok d => rfl
    · unfold Store.entry
      have : resolveDrive (s.updateDrive did fun d => d.clearEntry e) did'
          = resolveDrive s did' := by
        unfold resolveDrive
        rw [lookup_updateDrive_other s did did' _ hd]
      rw [this]

theorem clear_preserves_entries (s : Store) (b : BlobId) (did did' : String) :
    Option.map Drive.entries ((Store.clear s b did).lookup did')
      = Option.map Drive.entries (s.lookup did') := by
  unfold Store.clear
  cases he : Store.entry s b did with
  | error err => rfl
  | ok e =>
    dsimp only
    by_cases hd : did' = did
    · subst hd
      rw [lookup_updateDrive_self]
      cases s.lookup did' <;> rfl
    · rw [lookup_updateDrive_other s did did' _ hd]

theorem clear_eq (s : Store) (b : BlobId) (did : String) :
    Store.clear s b did = match Store.entry s b did with
      | .error _ => s
      | .ok e => s.updateDrive did fun d => d.clearEntry e := rfl

theorem clear_idempotent (s : Store) (b : BlobId) (did : String) :
    Store.clear (Store.clear s b did) b did = Store.clear s b did := by
  rw [clear_eq (Store.clear s b did) b did]
  rw [entry_clear s b did b did]
  cases he : Store.entry s b did with
  | error err => rfl
  | ok e =>
    dsimp only
    rw [clear_eq s b did, he]
    dsimp only
    exact updateDrive_idem s did _ (fun d => clearEntry_idem d e)

/-- C1 helper: resolving a blob just written by `put` yields its new entry. -/
theorem entry_after_put (s : Store) (b : BlobId) (y : Bytes)
    (hInit : s.writer.initialized = true) :
    Store.entry (s.put b y).1 b s.writerDriveId = .ok (newEntry s.writer b y) := by
  have hlook : (s.put b y).1.lookup s.writerDriveId
      = some (s.writer.appendBlob b y true) := lookup_writer _
  have hres : resolveDrive (s.put b y).1 s.writerDriveId
      = .ok (s.writer.appendBlob b y true) := by
    apply resolveDrive_ok _ _ _ hlook
    · rw [appendBlob_initialized]; exact hInit
    · rw [appendBlob_indexContig]; omega
  unfold Store.entry
  rw [hres]
  dsimp only
  rw [lookupEntry_appendBlob_self]

/-- C3: after storing a blob with `put`, clearing it deletes only the local
block data: `clear` is idempotent, leaves every drive's index entries
untouched (so `entry()` on the same BlobId still succeeds, returning the same
entry), and a subsequent `createReadStream` on that entry fails with the
"Block not available" error. -/
theorem clear_local_only (s : Store) (b : BlobId) (y : Bytes)
    (hInit : s.writer.initialized = true) :
    Store.clear (Store.clear (s.put b y).1 b s.writerDriveId) b s.writerDriveId
        = Store.clear (s.put b y).1 b s.writerDriveId
    ∧ (∀ did', Option.map Drive.entries
          ((Store.clear (s.put b y).1 b s.writerDriveId).lookup did')
        = Option.map Drive.entries ((s.put b y).1.lookup did'))
    ∧ Store.entry (Store.clear (s.put b y).1 b s.writerDriveId) b s.writerDriveId
        = .ok (newEntry s.writer b y)
    ∧ Store.createReadStream (Store.clear (s.put b y).1 b s.writerDriveId) b
          s.writerDriveId
        = .error .blockNotAvailable := by
  have hentry := entry_after_put s b y hInit
  have hclear : Store.clear (s.put b y).1 b s.writerDriveId
      = (s.put b y).1.updateDrive s.writerDriveId
          (fun d => d.clearEntry (newEntry s.writer b y)) := by
    rw [clear_eq, hentry]
  refine ⟨clear_idempotent _ b s.writerDriveId,
    fun did' => clear_preserves_entries _ b s.writerDriveId did', ?_, ?_⟩
  · rw [entry_clear, hentry]
  · have hlookput : (s.put b y).1.lookup s.writerDriveId
        = some (s.writer.appendBlob b y true) := lookup_writer _
    have hlook2 : (Store.clear (s.put b y).1 b s.writerDriveId).lookup s.writerDriveId
        = some ((s.writer.appendBlob b y true).clearEntry (newEntry s.writer b y)) := by
      rw [hclear]
      rw [lookup_updateDrive_self, hlookput]
      rfl
    have hres : resolveDrive (Store.clear (s.put b y).1 b s.writerDriveId)
        s.writerDriveId
        = .ok ((s.writer.appendBlob b y true).clearEntry (newEntry s.writer b y)) := by
      apply resolveDrive_ok _ _ _ hlook2
      · rw [clearEntry_initialized, appendBlob_initialized]; exact hInit
      · rw [clearEntry_entries, clearEntry_indexContig, appendBlob_indexContig]; omega
    unfold Store.createReadStream
    rw [blobRead_of_resolveDrive_ok _ _ _ _ _ hres]
    unfold driveRead
    rw [lookupEntry_clearEntry, lookupEntry_appendBlob_self]
    dsimp only
    unfold readBlocks
    rw [allBlocksLocal_clearEntry_self _ _ (chunkBlocks_length_pos y)]
    rfl

/-- Witness for C3 at a concrete store and payload. -/
theorem clear_local_only_witness :
    Store.clear
          (Store.clear
            ((⟨"w", ⟨true, [], 0, [], []⟩, []⟩ : Store).put
              ⟨"photo", "original", "f"⟩ [1, 2]).1
            ⟨"photo", "original", "f"⟩ "w")
          ⟨"photo", "original", "f"⟩ "w"
        = Store.clear
            ((⟨"w", ⟨true, [], 0, [], []⟩, []⟩ : Store).put
              ⟨"photo", "original", "f"⟩ [1, 2]).1
            ⟨"photo", "original", "f"⟩ "w"
    ∧ Store.entry
          (Store.clear
            ((⟨"w", ⟨true, [], 0, [], []⟩, []⟩ : Store).put
              ⟨"photo", "original", "f"⟩ [1, 2]).1
            ⟨"photo", "original", "f"⟩ "w")
          ⟨"photo", "original", "f"⟩ "w"
        = .ok (newEntry ⟨true, [], 0, [], []⟩ ⟨"photo", "original", "f"⟩ [1, 2])
    ∧ Store.createReadStream
          (Store.clear
            ((⟨"w", ⟨true, [], 0, [], []⟩, []⟩ : Store).put
              ⟨"photo", "original", "f"⟩ [1, 2]).1
            ⟨"photo", "original", "f"⟩ "w")
          ⟨"photo", "original", "f"⟩ "w"
        = .error .blockNotAvailable := by
  have h := clear_local_only (⟨"w", ⟨true, [], 0, [], []⟩, []⟩ : Store)
    ⟨"photo", "original", "f"⟩ [1, 2] rfl
  exact ⟨h.1, h.2.2.1, h.2.2.2⟩

/-- C10: `getCapabilities` is total over device ids and always yields one of
the predefined capability values; with no stored role assignment it returns
`CREATOR_CAPABILITIES` exactly when the device's auth core id equals the
project creator's auth core id and the Blocked capabilities otherwise; a
stored role id outside the three known role ids also yields the Blocked
capabilities — there is no separate "no role" capability value. -/
theorem getCapabilities_spec (env : CapabilitiesEnv) (d : String) :
    (getCapabilities env d = CREATOR_CAPABILITIES
      ∨ getCapabilities env d = MEMBER_CAPABILITIES
      ∨ getCapabilities env d = COORDINATOR_CAPABILITIES
      ∨ getCapabilities env d = BLOCKED_CAPABILITIES)
    ∧ (env.roleOf d = none →
        getCapabilities env d =
          if env.authCoreIdOf d = env.projectCreatorAuthCoreId then
            CREATOR_CAPABILITIES
          else BLOCKED_CAPABILITIES)
    ∧ (∀ r, env.roleOf d = some r → isKnownRoleId r = false →
        getCapabilities env d = BLOCKED_CAPABILITIES) := by
  refine ⟨?_, ?_, ?_⟩
  · unfold getCapabilities
    cases hR : env.roleOf d with
    | none =>
      by_cases hA : env.authCoreIdOf d = env.projectCreatorAuthCoreId
      · simp [hA]
      · simp [hA]
    | some r =>
      dsimp only
      by_cases hK : isKnownRoleId r = false
      · simp [hK]
      · rw [if_neg hK]
        unfold DEFAULT_CAPABILITIES
        by_cases h1 : r = MEMBER_ROLE_ID
        · rw [h1]; decide
        · by_cases h2 : r = COORDINATOR_ROLE_ID
          · rw [h2]; decide
          · by_cases h3 : r = BLOCKED_ROLE_ID
            · rw [h3]; decide
            · simp [h1, h2, h3]
  · intro hR
    unfold getCapabilities
    rw [hR]
  · intro r hR hK
    unfold getCapabilities
    rw [hR]
    simp [hK]

/-- Witness for C10: a device with no role record whose auth core is the
creator's, and a device with a stored role id that is not a known role id. -/
theorem getCapabilities_spec_witness :
    getCapabilities ⟨fun _ => none, fun _ => "k", "k"⟩ "dev" = CREATOR_CAPABILITIES
    ∧ getCapabilities ⟨fun _ => some "bogus", fun _ => "k", "k"⟩ "dev"
        = BLOCKED_CAPABILITIES := by
  constructor
  · have h := (getCapabilities_spec ⟨fun _ => none, fun _ => "k", "k"⟩ "dev").2.1 rfl
    simpa using h
  · exact (getCapabilities_spec ⟨fun _ => some "bogus", fun _ => "k", "k"⟩ "dev").2.2
      "bogus" rfl (by decide)

/-! ## Lemmas about live downloads -/

/-- Invariants of a drive built by replication: initialized, index fully
contiguous, local blocks and entry ranges inside the data core. -/
def Drive.goodRemote (d : Drive) : Prop :=
  d.initialized = true ∧ d.indexContig = d.entries.length
    ∧ d.blocksBounded ∧ d.entriesBounded

theorem emptyRemoteDrive_goodRemote : emptyRemoteDrive.goodRemote := by
  refine ⟨rfl, rfl, ?_, ?_⟩ <;> intro x hx <;> exact absurd hx (List.not_mem_nil x)

theorem appendBlob_goodRemote (d : Drive) (b : BlobId) (y : Bytes) (fd : Bool)
    (h : d.goodRemote) : (d.appendBlob b y fd).goodRemote := by
  obtain ⟨h1, h2, h3, h4⟩ := h
  refine ⟨?_, ?_, ?_, ?_⟩
  · rw [appendBlob_initialized]; exact h1
  · rw [appendBlob_indexContig, appendBlob_entries]; simp
  · intro i hi
    rw [appendBlob_dataCore, List.length_append]
    cases fd with
    | true =>
      rw [appendBlob_localBlocks_true] at hi
      rcases List.mem_append.mp hi with hi | hi
      · have := h3 i hi; omega
      · rcases List.mem_map.mp hi with ⟨k, hk, hik⟩
        rw [List.mem_range] at hk
        omega
    | false =>
      rw [appendBlob_localBlocks_false] at hi
      have := h3 i hi; omega
  · intro e he
    rw [appendBlob_dataCore, List.length_append]
    rw [appendBlob_entries] at he
    rcases List.mem_append.mp he with he | he
    · have := h4 e he; omega
    · rcases List.mem_singleton.mp he with rfl
      unfold newEntry
      dsimp only
      omega

/-- The drive obtained by replicating a sequence of writes, fetching the data
blocks of exactly the filter-matching ones. -/
def foldDrive (f : Option DownloadFilter) (d : Drive)
    (ws : List (BlobId × Bytes)) : Drive :=
  ws.foldl (fun d p => d.appendBlob p.1 p.2 (matchesFilter f p.1)) d

theorem foldDrive_goodRemote (f : Option DownloadFilter) (d : Drive)
    (ws : List (BlobId × Bytes)) (h : d.goodRemote) :
    (foldDrive f d ws).goodRemote := by
  induction ws generalizing d with
  | nil => exact h
  | cons p ps ih =>
    exact ih _ (appendBlob_goodRemote d p.1 p.2 _ h)

theorem foldDrive_driveRead (f : Option DownloadFilter)
    (ws : List (BlobId × Bytes)) (d : Drive) (hd : d.goodRemote)
    (hnd : (ws.map Prod.fst).Nodup) (b : BlobId) (y : Bytes)
    (hmem : (b, y) ∈ ws) (wait : Bool) :
    driveRead (foldDrive f d ws) b wait =
      if matchesFilter f b then .ok y
      else .error (if wait then .remoteUnavailable else .blockNotAvailable) := by
  induction ws using List.reverseRecOn generalizing d with
  | nil => exact absurd hmem (List.not_mem_nil _)
  | append_singleton ws' p ih =>
    obtain ⟨pb, py⟩ := p
    have hfold : foldDrive f d (ws' ++ [(pb, py)])
        = (foldDrive f d ws').appendBlob pb py (matchesFilter f pb) := by
      unfold foldDrive
      rw [List.foldl_append]
      rfl
    have hD : (foldDrive f d ws').goodRemote := foldDrive_goodRemote f d ws' hd
    rw [List.map_append] at hnd
    rcases List.nodup_append.mp hnd with ⟨hnd1, _, hdisj⟩
    rcases List.mem_append.mp hmem with hmem | hmem
    · have hbmem : b ∈ ws'.map Prod.fst := List.mem_map.mpr ⟨(b, y), hmem, rfl⟩
      have hbne : b ≠ pb := by
        intro hcon
        have := hdisj hbmem
        rw [hcon] at this
        exact this (by simp)
      rw [hfold]
      rw [driveRead_appendBlob_other _ b pb py _ wait hbne hD.2.1 hD.2.2.2]
      exact ih d hd hnd1 hmem
    · have hpe := List.mem_singleton.mp hmem
      rw [Prod.mk.injEq] at hpe
      obtain ⟨hb, hy⟩ := hpe
      rw [hfold, ← hb, ← hy]
      rw [driveRead_appendBlob_self _ b y _ wait hD.2.2.1]

/-- Events that replicate a list of writes, all to one drive. -/
def writesTo (did : String) (ws : List (BlobId × Bytes)) : List DlEvent :=
  ws.map fun p => DlEvent.write did p.1 p.2

theorem dlStep_write (f : Option DownloadFilter) (st : DlState) (s : Store)
    (did : String) (b : BlobId) (y : Bytes) :
    dlStep f (st, s) (.write did b y)
      = if st.aborted then (st, s)
        else if matchesFilter f b then
          ({ st with haveCount := st.haveCount + 1, wantCount := st.wantCount + 1 },
            applyRemoteWrite s did b y true)
        else (st, applyRemoteWrite s did b y false) := rfl

theorem dlStep_abort (f : Option DownloadFilter) (st : DlState) (s : Store) :
    dlStep f (st, s) .abort = ({ st with aborted := true }, s) := rfl

theorem dlRun_writesTo_state (f : Option DownloadFilter) (st : DlState) (s : Store)
    (did : String) (ws : List (BlobId × Bytes)) (ha : st.aborted = false) :
    (dlRun f (st, s) (writesTo did ws)).1
      = { st with
          haveCount := st.haveCount + (ws.filter fun p => matchesFilter f p.1).length,
          wantCount := st.wantCount + (ws.filter fun p => matchesFilter f p.1).length } := by
  induction ws generalizing st s with
  | nil => simp [writesTo, dlRun]
  | cons p ps ih =>
    unfold writesTo dlRun at ih ⊢
    rw [List.map_cons, List.foldl_cons, dlStep_write]
    rw [if_neg (by rw [ha]; exact Bool.false_ne_true)]
    cases hm : matchesFilter f p.1 with
    | true =>
      rw [if_pos rfl]
      rw [ih { st with haveCount := st.haveCount + 1, wantCount := st.wantCount + 1 }
        (applyRemoteWrite s did p.1 p.2 true) ha]
      simp [List.filter_cons, hm]
      omega
    | false =>
      rw [if_neg (by exact Bool.false_ne_true)]
      rw [ih _ _ ha]
      simp [List.filter_cons, hm]

theorem dlRun_writesTo_lookup_of_some (f : Option DownloadFilter) (st : DlState)
    (s : Store) (did : String) (ws : List (BlobId × Bytes)) (d : Drive)
    (ha : st.aborted = false) (hl : s.lookup did = some d) :
    (dlRun f (st, s) (writesTo did ws)).2.lookup did = some (foldDrive f d ws) := by
  induction ws generalizing st s d with
  | nil => exact hl
  | cons p ps ih =>
    unfold writesTo dlRun at ih ⊢
    rw [List.map_cons, List.foldl_cons, dlStep_write]
    rw [if_neg (by rw [ha]; exact Bool.false_ne_true)]
    have hfold : foldDrive f d (p :: ps)
        = foldDrive f (d.appendBlob p.1 p.2 (matchesFilter f p.1)) ps := rfl
    rw [hfold]
    have happ : (applyRemoteWrite s did p.1 p.2 (matchesFilter f p.1)).lookup did
        = some (d.appendBlob p.1 p.2 (matchesFilter f p.1)) := by
      rw [applyRemoteWrite_lookup_self, hl]
      rfl
    cases hm : matchesFilter f p.1 with
    | true =>
      rw [if_pos rfl]
      rw [hm] at happ
      exact ih _ _ _ ha happ
    | false =>
      rw [if_neg (by exact Bool.false_ne_true)]
      rw [hm] at happ
      exact ih _ _ _ ha happ

theorem dlRun_writesTo_lookup_fresh (f : Option DownloadFilter) (st : DlState)
    (s : Store) (did : String) (ws : List (BlobId × Bytes))
    (ha : st.aborted = false) (hl : s.lookup did = none) (hw : ws ≠ []) :
    (dlRun f (st, s) (writesTo did ws)).2.lookup did
      = some (foldDrive f emptyRemoteDrive ws) := by
  cases ws with
  | nil => exact absurd rfl hw
  | cons p ps =>
    unfold writesTo dlRun
    rw [List.map_cons, List.foldl_cons, dlStep_write]
    rw [if_neg (by rw [ha]; exact Bool.false_ne_true)]
    have hfold : foldDrive f emptyRemoteDrive (p :: ps)
        = foldDrive f (emptyRemoteDrive.appendBlob p.1 p.2 (matchesFilter f p.1)) ps := rfl
    rw [hfold]
    have happ : (applyRemoteWrite s did p.1 p.2 (matchesFilter f p.1)).lookup did
        = some (emptyRemoteDrive.appendBlob p.1 p.2 (matchesFilter f p.1)) := by
      rw [applyRemoteWrite_lookup_self, hl]
      rfl
    cases hm : matchesFilter f p.1 with
    | true =>
      rw [if_pos rfl]
      rw [hm] at happ
      have hrun := dlRun_writesTo_lookup_of_some f
        { st with haveCount := st.haveCount + 1, wantCount := st.wantCount + 1 }
        (applyRemoteWrite s did p.1 p.2 true) did ps
        (emptyRemoteDrive.appendBlob p.1 p.2 true) ha happ
      unfold writesTo dlRun at hrun
      exact hrun
    | false =>
      rw [if_neg (by exact Bool.false_ne_true)]
      rw [hm] at happ
      have hrun := dlRun_writesTo_lookup_of_some f st
        (applyRemoteWrite s did p.1 p.2 false) did ps
        (emptyRemoteDrive.appendBlob p.1 p.2 false) ha happ
      unfold writesTo dlRun at hrun
      exact hrun

theorem dlStep_write_aborted_eq (f : Option DownloadFilter) (st : DlState)
    (s : Store) (did : String) (b : BlobId) (y : Bytes) :
    (dlStep f (st, s) (.write did b y)).1.aborted = st.aborted := by
  rw [dlStep_write]
  by_cases hab : st.aborted = true
  · rw [if_pos hab]
  · rw [if_neg hab]
    by_cases hm : matchesFilter f b = true
    · rw [if_pos hm]
    · rw [if_neg hm]

theorem dlRun_aborted_eq (f : Option DownloadFilter) (p : DlState × Store)
    (evs : List DlEvent) (hNo : DlEvent.abort ∉ evs) :
    (dlRun f p evs).1.aborted = p.1.aborted := by
  induction evs generalizing p with
  | nil => rfl
  | cons ev evs ih =>
    have hNoTail : DlEvent.abort ∉ evs := fun hm => hNo (List.mem_cons_of_mem _ hm)
    unfold dlRun at ih ⊢
    rw [List.foldl_cons, ih (dlStep f p ev) hNoTail]
    obtain ⟨st, s⟩ := p
    cases ev with
    | abort => exact absurd (List.mem_cons_self _ _) hNo
    | write did b y => exact dlStep_write_aborted_eq f st s did b y

theorem dlStep_errored_eq (f : Option DownloadFilter) (p : DlState × Store)
    (ev : DlEvent) : (dlStep f p ev).1.errored = p.1.errored := by
  obtain ⟨st, s⟩ := p
  cases ev with
  | abort => rfl
  | write did b y =>
    rw [dlStep_write]
    by_cases hab : st.aborted = true
    · rw [if_pos hab]
    · rw [if_neg hab]
      by_cases hm : matchesFilter f b = true
      · rw [if_pos hm]
      · rw [if_neg hm]

theorem dlRun_errored_eq (f : Option DownloadFilter) (p : DlState × Store)
    (evs : List DlEvent) : (dlRun f p evs).1.errored = p.1.errored := by
  induction evs generalizing p with
  | nil => rfl
  | cons ev evs ih =>
    unfold dlRun at ih ⊢
    rw [List.foldl_cons, ih (dlStep f p ev)]
    exact dlStep_errored_eq f p ev

theorem dlStep_write_lookup_other (f : Option DownloadFilter) (st : DlState)
    (s : Store) (did : String) (b : BlobId) (y : Bytes) (did2 : String)
    (h : did2 ≠ did) :
    (dlStep f (st, s) (.write did b y)).2.lookup did2 = s.lookup did2 := by
  rw [dlStep_write]
  by_cases hab : st.aborted = true
  · rw [if_pos hab]
  · rw [if_neg hab]
    by_cases hm : matchesFilter f b = true
    · rw [if_pos hm]
      exact applyRemoteWrite_lookup_other s did did2 b y true h
    · rw [if_neg hm]
      exact applyRemoteWrite_lookup_other s did did2 b y false h

theorem dlRun_lookup_untouched (f : Option DownloadFilter) (p : DlState × Store)
    (evs : List DlEvent) (did2 : String)
    (hFresh : ∀ b y, DlEvent.write did2 b y ∉ evs) :
    (dlRun f p evs).2.lookup did2 = p.2.lookup did2 := by
  induction evs generalizing p with
  | nil => rfl
  | cons ev evs ih =>
    have hTail : ∀ b y, DlEvent.write did2 b y ∉ evs :=
      fun b y hm => hFresh b y (List.mem_cons_of_mem _ hm)
    unfold dlRun at ih ⊢
    rw [List.foldl_cons, ih (dlStep f p ev) hTail]
    obtain ⟨st, s⟩ := p
    cases ev with
    | abort => rfl
    | write did b y =>
      have hdid : did2 ≠ did := by
        intro hcon
        exact hFresh b y (hcon ▸ List.mem_cons_self _ _)
      exact dlStep_write_lookup_other f st s did b y did2 hdid

theorem dlStep_have_eq_want (f : Option DownloadFilter) (p : DlState × Store)
    (ev : DlEvent) (h : p.1.haveCount = p.1.wantCount) :
    (dlStep f p ev).1.haveCount = (dlStep f p ev).1.wantCount := by
  obtain ⟨st, s⟩ := p
  cases ev with
  | abort => exact h
  | write did b y =>
    rw [dlStep_write]
    by_cases hab : st.aborted = true
    · rw [if_pos hab]; exact h
    · rw [if_neg hab]
      by_cases hm : matchesFilter f b = true
      · rw [if_pos hm]
        have hcounts : st.haveCount = st.wantCount := h
        show st.haveCount + 1 = st.wantCount + 1
        omega
      · rw [if_neg hm]; exact h

theorem dlRun_have_eq_want (f : Option DownloadFilter) (p : DlState × Store)
    (evs : List DlEvent) (h : p.1.haveCount = p.1.wantCount) :
    (dlRun f p evs).1.haveCount = (dlRun f p evs).1.wantCount := by
  induction evs generalizing p with
  | nil => exact h
  | cons ev evs ih =>
    unfold dlRun at ih ⊢
    rw [List.foldl_cons]
    exact ih (dlStep f p ev) (dlStep_have_eq_want f p ev h)

theorem dlStep_of_aborted (f : Option DownloadFilter) (p : DlState × Store)
    (ev : DlEvent) (ha : p.1.aborted = true) : dlStep f p ev = p := by
  obtain ⟨st, s⟩ := p
  cases ev with
  | abort =>
    rw [dlStep_abort]
    conv_lhs => rw [← ha]
  | write did b y =>
    rw [dlStep_write, if_pos ha]

theorem dlRun_of_aborted (f : Option DownloadFilter) (p : DlState × Store)
    (evs : List DlEvent) (ha : p.1.aborted = true) : dlRun f p evs = p := by
  induction evs generalizing p with
  | nil => rfl
  | cons ev evs ih =>
    unfold dlRun at ih ⊢
    rw [List.foldl_cons, dlStep_of_aborted f p ev ha]
    exact ih p ha

/-- The filter used by the sparse-download scenario: photo originals and
previews, but not thumbnails. -/
def sparseFilter : DownloadFilter := [("photo", ["original", "preview"])]

theorem matchesFilter_sparse_true (b : BlobId) (ht : b.typ = "photo")
    (hv : b.variant = "original" ∨ b.variant = "preview") :
    matchesFilter (some sparseFilter) b = true := by
  obtain ⟨t, v, n⟩ := b
  have ht' : t = "photo" := ht
  subst ht'
  rcases hv with hv | hv
  · have hv' : v = "original" := hv
    subst hv'
    rfl
  · have hv' : v = "preview" := hv
    subst hv'
    rfl

theorem matchesFilter_sparse_thumbnail (b : BlobId) (ht : b.typ = "photo")
    (hv : b.variant = "thumbnail") :
    matchesFilter (some sparseFilter) b = false := by
  obtain ⟨t, v, n⟩ := b
  have ht' : t = "photo" := ht
  subst ht'
  have hv' : v = "thumbnail" := hv
  subst hv'
  rfl

/-- C4: a live download with filter `{photo: [original, preview]}` over any
sequence of distinct-identity blobs written to one replicated drive ends in
the `downloaded` state with `haveCount` equal to the number of
filter-matching blobs; every photo/original and photo/preview blob written is
then locally retrievable via `get`, while every photo/thumbnail blob was not
fetched: `get` for the excluded variant fails as not locally available. -/
theorem sparse_live_download (s : Store) (did : String)
    (ws : List (BlobId × Bytes)) (hNone : s.lookup did = none)
    (hnd : (ws.map Prod.fst).Nodup) :
    dlStatus (dlRun (some sparseFilter) (dlInit, s) (writesTo did ws)).1
        = "downloaded"
    ∧ (dlRun (some sparseFilter) (dlInit, s) (writesTo did ws)).1.haveCount
        = (ws.filter fun p => matchesFilter (some sparseFilter) p.1).length
    ∧ (∀ b y, (b, y) ∈ ws → b.typ = "photo" →
        (b.variant = "original" ∨ b.variant = "preview") →
        Store.get (dlRun (some sparseFilter) (dlInit, s) (writesTo did ws)).2 b did
          = .ok y)
    ∧ (∀ b y, (b, y) ∈ ws → b.typ = "photo" → b.variant = "thumbnail" →
        Store.get (dlRun (some sparseFilter) (dlInit, s) (writesTo did ws)).2 b did
          = .error .remoteUnavailable) := by
  have hstate := dlRun_writesTo_state (some sparseFilter) dlInit s did ws rfl
  have hread : ∀ b y, (b, y) ∈ ws → ∀ wait,
      blobRead (dlRun (some sparseFilter) (dlInit, s) (writesTo did ws)).2 b did wait
        = if matchesFilter (some sparseFilter) b then .ok y
          else .error (if wait then .remoteUnavailable else .blockNotAvailable) := by
    intro b y hmem wait
    have hw : ws ≠ [] := List.ne_nil_of_mem hmem
    have hlook := dlRun_writesTo_lookup_fresh (some sparseFilter) dlInit s did ws
      rfl hNone hw
    have hD := foldDrive_goodRemote (some sparseFilter) emptyRemoteDrive ws
      emptyRemoteDrive_goodRemote
    have hres : resolveDrive (dlRun (some sparseFilter) (dlInit, s) (writesTo did ws)).2
        did = .ok (foldDrive (some sparseFilter) emptyRemoteDrive ws) := by
      apply resolveDrive_ok _ _ _ hlook hD.1
      intro hand
      rw [hD.2.1] at hand
      omega
    rw [blobRead_of_resolveDrive_ok _ _ _ _ _ hres]
    exact foldDrive_driveRead (some sparseFilter) ws emptyRemoteDrive
      emptyRemoteDrive_goodRemote hnd b y hmem wait
  refine ⟨?_, ?_, ?_, ?_⟩
  · rw [hstate]
    unfold dlStatus
    rw [if_neg (by show ¬(0 + _ < 0 + _); omega)]
  · rw [hstate]
    show 0 + _ = _
    omega
  · intro b y hmem ht hv
    unfold Store.get
    rw [hread b y hmem true, matchesFilter_sparse_true b ht hv]
    rfl
  · intro b y hmem ht hv
    unfold Store.get
    rw [hread b y hmem true, matchesFilter_sparse_thumbnail b ht hv]
    rfl

/-- Witness for C4 at a concrete store, one original and one thumbnail. -/
theorem sparse_live_download_witness :
    dlStatus (dlRun (some sparseFilter) (dlInit, ⟨"w", ⟨true, [], 0, [], []⟩, []⟩)
        (writesTo "d"
          [(⟨"photo", "original", "a"⟩, [1]), (⟨"photo", "thumbnail", "c"⟩, [2])])).1
      = "downloaded"
    ∧ Store.get (dlRun (some sparseFilter) (dlInit, ⟨"w", ⟨true, [], 0, [], []⟩, []⟩)
        (writesTo "d"
          [(⟨"photo", "original", "a"⟩, [1]), (⟨"photo", "thumbnail", "c"⟩, [2])])).2
        ⟨"photo", "original", "a"⟩ "d" = .ok [1]
    ∧ Store.get (dlRun (some sparseFilter) (dlInit, ⟨"w", ⟨true, [], 0, [], []⟩, []⟩)
        (writesTo "d"
          [(⟨"photo", "original", "a"⟩, [1]), (⟨"photo", "thumbnail", "c"⟩, [2])])).2
        ⟨"photo", "thumbnail", "c"⟩ "d" = .error .remoteUnavailable := by
  have h := sparse_live_download ⟨"w", ⟨true, [], 0, [], []⟩, []⟩ "d"
    [(⟨"photo", "original", "a"⟩, [1]), (⟨"photo", "thumbnail", "c"⟩, [2])]
    (by decide) (by decide)
  exact ⟨h.1, h.2.2.1 ⟨"photo", "original", "a"⟩ [1] (by decide) rfl (Or.inl rfl),
    h.2.2.2 ⟨"photo", "thumbnail", "c"⟩ [2] (by decide) rfl rfl⟩

/-- C5: a LiveDownload started before a second source drive joins replication
still downloads, in the same run, a blob written to that drive after it
joined: the aggregate state is again `downloaded` with the new blob counted
(`haveCount` one higher than after the prior events, hence nonzero), and the
new blob is locally retrievable via `get`. -/
theorem live_download_new_drive (s : Store) (evs : List DlEvent) (did2 : String)
    (b2 : BlobId) (y2 : Bytes) (hNoAbort : DlEvent.abort ∉ evs)
    (hFresh : ∀ b y, DlEvent.write did2 b y ∉ evs)
    (hNone : s.lookup did2 = none) :
    dlStatus (dlRun none (dlInit, s) (evs ++ [DlEvent.write did2 b2 y2])).1
        = "downloaded"
    ∧ (dlRun none (dlInit, s) (evs ++ [DlEvent.write did2 b2 y2])).1.haveCount
        = (dlRun none (dlInit, s) evs).1.haveCount + 1
    ∧ 0 < (dlRun none (dlInit, s) (evs ++ [DlEvent.write did2 b2 y2])).1.haveCount
    ∧ Store.get (dlRun none (dlInit, s) (evs ++ [DlEvent.write did2 b2 y2])).2 b2 did2
        = .ok y2 := by
  have hab : (dlRun none (dlInit, s) evs).1.aborted = false :=
    dlRun_aborted_eq none (dlInit, s) evs hNoAbort
  have hlookq : (dlRun none (dlInit, s) evs).2.lookup did2 = none :=
    (dlRun_lookup_untouched none (dlInit, s) evs did2 hFresh).trans hNone
  have hhw : (dlRun none (dlInit, s) evs).1.haveCount
      = (dlRun none (dlInit, s) evs).1.wantCount :=
    dlRun_have_eq_want none (dlInit, s) evs rfl
  have hstep : dlStep none (dlRun none (dlInit, s) evs) (DlEvent.write did2 b2 y2)
      = ({ (dlRun none (dlInit, s) evs).1 with
            haveCount := (dlRun none (dlInit, s) evs).1.haveCount + 1,
            wantCount := (dlRun none (dlInit, s) evs).1.wantCount + 1 },
          applyRemoteWrite (dlRun none (dlInit, s) evs).2 did2 b2 y2 true) := by
    have hpair : dlStep none (dlRun none (dlInit, s) evs) (DlEvent.write did2 b2 y2)
        = dlStep none ((dlRun none (dlInit, s) evs).1, (dlRun none (dlInit, s) evs).2)
            (DlEvent.write did2 b2 y2) := rfl
    rw [hpair, dlStep_write]
    rw [if_neg (by rw [hab]; exact Bool.false_ne_true),
      if_pos (show matchesFilter none b2 = true from rfl)]
  have hsplit : dlRun none (dlInit, s) (evs ++ [DlEvent.write did2 b2 y2])
      = dlStep none (dlRun none (dlInit, s) evs) (DlEvent.write did2 b2 y2) := by
    unfold dlRun
    rw [List.foldl_append]
    rfl
  rw [hsplit, hstep]
  refine ⟨?_, rfl, ?_, ?_⟩
  · unfold dlStatus
    rw [if_neg]
    show ¬((dlRun none (dlInit, s) evs).1.haveCount + 1
      < (dlRun none (dlInit, s) evs).1.wantCount + 1)
    omega
  · show 0 < (dlRun none (dlInit, s) evs).1.haveCount + 1
    omega
  · have hlook2 : (applyRemoteWrite (dlRun none (dlInit, s) evs).2 did2 b2 y2
        true).lookup did2 = some (emptyRemoteDrive.appendBlob b2 y2 true) := by
      rw [applyRemoteWrite_lookup_self, hlookq]
      rfl
    have hres : resolveDrive
        (applyRemoteWrite (dlRun none (dlInit, s) evs).2 did2 b2 y2 true) did2
        = .ok (emptyRemoteDrive.appendBlob b2 y2 true) := by
      apply resolveDrive_ok _ _ _ hlook2
      · rw [appendBlob_initialized]; rfl
      · rw [appendBlob_indexContig]; omega
    unfold Store.get
    rw [blobRead_of_resolveDrive_ok _ _ _ _ _ hres]
    exact driveRead_appendBlob_self_true emptyRemoteDrive b2 y2 true

/-- Witness for C5: a run with one prior write to another drive, then a write
to the newly joined drive. -/
theorem live_download_new_drive_witness :
    dlStatus (dlRun none (dlInit, ⟨"w", ⟨true, [], 0, [], []⟩, []⟩)
        ([DlEvent.write "d1" ⟨"photo", "original", "a"⟩ [1]]
          ++ [DlEvent.write "d2" ⟨"photo", "original", "b"⟩ [2]])).1 = "downloaded"
    ∧ Store.get (dlRun none (dlInit, ⟨"w", ⟨true, [], 0, [], []⟩, []⟩)
        ([DlEvent.write "d1" ⟨"photo", "original", "a"⟩ [1]]
          ++ [DlEvent.write "d2" ⟨"photo", "original", "b"⟩ [2]])).2
        ⟨"photo", "original", "b"⟩ "d2" = .ok [2] := by
  have h := live_download_new_drive ⟨"w", ⟨true, [], 0, [], []⟩, []⟩
    [DlEvent.write "d1" ⟨"photo", "original", "a"⟩ [1]] "d2"
    ⟨"photo", "original", "b"⟩ [2]
    (by decide)
    (by
      intro b y hm
      rw [List.mem_singleton] at hm
      injection hm with h1 h2 h3
      exact absurd h1 (by decide))
    (by decide)
  exact ⟨h.1, h.2.2.2⟩

/-- C6: once a LiveDownload's abort signal fires, no blob replicated
afterwards is fetched (the local store is exactly what it was at abort time,
and a drive first written after the abort stays unknown, so `get` on it fails
with UnknownDrive); the blob downloaded before the abort stays locally
retrievable; and the abort produces no error (the error flag stays unset and
`haveCount` keeps its pre-abort value). -/
theorem cancelled_live_download (s : Store) (did1 : String) (b1 : BlobId)
    (y1 : Bytes) (evs2 : List DlEvent) (hNone : s.lookup did1 = none) :
    (dlRun none (dlInit, s) (DlEvent.write did1 b1 y1 :: DlEvent.abort :: evs2)).2
        = (dlStep none (dlInit, s) (DlEvent.write did1 b1 y1)).2
    ∧ (dlRun none (dlInit, s)
        (DlEvent.write did1 b1 y1 :: DlEvent.abort :: evs2)).1.haveCount = 1
    ∧ (dlRun none (dlInit, s)
        (DlEvent.write did1 b1 y1 :: DlEvent.abort :: evs2)).1.errored = false
    ∧ Store.get (dlRun none (dlInit, s)
        (DlEvent.write did1 b1 y1 :: DlEvent.abort :: evs2)).2 b1 did1 = .ok y1
    ∧ (∀ (did2 : String) (b2 : BlobId), did2 ≠ did1 → s.lookup did2 = none →
        Store.get (dlRun none (dlInit, s)
          (DlEvent.write did1 b1 y1 :: DlEvent.abort :: evs2)).2 b2 did2
          = .error .unknownDrive) := by
  have h1 : dlStep none (dlInit, s) (DlEvent.write did1 b1 y1)
      = (⟨false, false, 1, 1⟩, applyRemoteWrite s did1 b1 y1 true) := by
    rw [dlStep_write]
    rw [if_neg (by exact Bool.false_ne_true),
      if_pos (show matchesFilter none b1 = true from rfl)]
    rfl
  have h2 : dlRun none (dlInit, s) (DlEvent.write did1 b1 y1 :: DlEvent.abort :: evs2)
      = (⟨true, false, 1, 1⟩, applyRemoteWrite s did1 b1 y1 true) := by
    unfold dlRun
    rw [List.foldl_cons, List.foldl_cons, h1, dlStep_abort]
    exact dlRun_of_aborted none _ evs2 rfl
  have hget1 : Store.get (applyRemoteWrite s did1 b1 y1 true) b1 did1 = .ok y1 := by
    have hlook1 : (applyRemoteWrite s did1 b1 y1 true).lookup did1
        = some (emptyRemoteDrive.appendBlob b1 y1 true) := by
      rw [applyRemoteWrite_lookup_self, hNone]
      rfl
    have hres : resolveDrive (applyRemoteWrite s did1 b1 y1 true) did1
        = .ok (emptyRemoteDrive.appendBlob b1 y1 true) := by
      apply resolveDrive_ok _ _ _ hlook1
      · rw [appendBlob_initialized]; rfl
      · rw [appendBlob_indexContig]; omega
    unfold Store.get
    rw [blobRead_of_resolveDrive_ok _ _ _ _ _ hres]
    exact driveRead_appendBlob_self_true emptyRemoteDrive b1 y1 true
  rw [h2, h1]
  refine ⟨rfl, rfl, rfl, hget1, ?_⟩
  intro did2 b2 hne hNone2
  have hlook2 : (applyRemoteWrite s did1 b1 y1 true).lookup did2 = none := by
    rw [applyRemoteWrite_lookup_other s did1 did2 b1 y1 true hne]
    exact hNone2
  unfold Store.get blobRead resolveDrive
  rw [hlook2]

/-- Witness for C6: one blob downloaded, an abort, then a write to a new
drive that is consequently never fetched. -/
theorem cancelled_live_download_witness :
    Store.get (dlRun none (dlInit, ⟨"w", ⟨true, [], 0, [], []⟩, []⟩)
        (DlEvent.write "d1" ⟨"photo", "original", "a"⟩ [1] :: DlEvent.abort
          :: [DlEvent.write "d2" ⟨"photo", "original", "b"⟩ [2]])).2
        ⟨"photo", "original", "a"⟩ "d1" = .ok [1]
    ∧ Store.get (dlRun none (dlInit, ⟨"w", ⟨true, [], 0, [], []⟩, []⟩)
        (DlEvent.write "d1" ⟨"photo", "original", "a"⟩ [1] :: DlEvent.abort
          :: [DlEvent.write "d2" ⟨"photo", "original", "b"⟩ [2]])).2
        ⟨"photo", "original", "b"⟩ "d2" = .error .unknownDrive
    ∧ (dlRun none (dlInit, ⟨"w", ⟨true, [], 0, [], []⟩, []⟩)
        (DlEvent.write "d1" ⟨"photo", "original", "a"⟩ [1] :: DlEvent.abort
          :: [DlEvent.write "d2" ⟨"photo", "original", "b"⟩ [2]])).1.errored
        = false := by
  have h := cancelled_live_download ⟨"w", ⟨true, [], 0, [], []⟩, []⟩ "d1"
    ⟨"photo", "original", "a"⟩ [1]
    [DlEvent.write "d2" ⟨"photo", "original", "b"⟩ [2]] (by decide)
  exact ⟨h.2.2.2.1,
    h.2.2.2.2 "d2" ⟨"photo", "original", "b"⟩ (by decide) (by decide),
    h.2.2.1⟩

end Mapeo
